import Mathlib

/-!
Shallow embedding of `gometalinter` (src/main.go): issue data model, the
line-oriented pattern matcher used by `executeLinter`, field extraction,
severity/message overrides, the output stage of `main`, and the
semaphore discipline of the worker pool.
-/

/-- Go `type Severity string` (main.go:18). -/
abbrev Severity := String

/-- Go `Warning Severity = "warning"` (main.go:22). -/
def Warning : Severity := "warning"

/-- Go `Error Severity = "error"` (main.go:23). -/
def ErrorSev : Severity := "error"

/-- Go `type Issue struct` (main.go:86-92).  Go `int` is modelled as `Int`. -/
structure Issue where
  severity : Severity
  path : String
  line : Int
  col : Int
  message : String
deriving Repr, DecidableEq

/-- Go `func (m *Issue) String() string` (main.go:94-100):
`fmt.Sprintf("%s:%d:%s:%s: %s", path, line, col, severity, message)` where
`col` renders as `""` when it is 0 and in decimal otherwise. -/
def Issue.String (m : Issue) : String :=
  let col := if m.col = 0 then "" else toString m.col
  m.path ++ ":" ++ toString m.line ++ ":" ++ col ++ ":" ++ m.severity ++ ": " ++ m.message

/-- Lexicographic comparison of char lists, the order Go `<` imposes on
strings (byte-lexicographic, which on valid UTF-8 equals codepoint order). -/
def charListLt : List Char → List Char → Bool
  | [], [] => false
  | [], _ :: _ => true
  | _ :: _, [] => false
  | x :: xs, y :: ys =>
    if x < y then true else if y < x then false else charListLt xs ys

/-- Go string comparison `a < b`. -/
def goStringLt (a b : String) : Bool := charListLt a.data b.data

/-- Go `func (m Issues) Less(i, j int) bool` (main.go:106-108):
`m[i].path < m[j].path || m[i].line < m[j].line || m[i].col < m[j].col`. -/
def Issues.Less (a b : Issue) : Bool :=
  goStringLt a.path b.path || decide (a.line < b.line) || decide (a.col < b.col)

/-!
Regular-expression matcher.  `executeLinter` compiles its pattern with
`regexp.Compile` and runs `re.FindAllSubmatch(line, -1)`.  The patterns the
program uses are sequences of literal characters and greedy repetitions of
one-character classes (`[^:]+`, `\d+`, `\s*`, `.*`), possibly named capture
groups.  We embed exactly that pattern language with Go/RE2 leftmost-first
(greedy, backtracking) match semantics.
-/

/-- One item of a pattern: a literal character, or a greedy repetition of a
character class (`atLeastOne = true` for `+`, `false` for `*`), optionally a
named capture group. -/
inductive RItem where
  | lit (c : Char)
  | rep (name : Option String) (atLeastOne : Bool) (cls : Char → Bool)

/-- Submatch captures: named-group name paired with captured text, in group
index order (Go `re.SubexpNames()` order). -/
abbrev Captures := List (String × String)

/-- Greedy backtracking over the repetition count: try `mink + fuel` first,
then count down to `mink`; first success wins. -/
def tryDown (g : Nat → Option α) (mink : Nat) : Nat → Option α
  | 0 => g mink
  | fuel+1 => (g (mink + fuel + 1)).orElse (fun _ => tryDown g mink fuel)

/-- Match one pattern item at the front of the input and continue with
`cont`; returns the captures and the number of characters consumed. -/
def itemStep (it : RItem) (cont : List Char → Option (Captures × Nat))
    (s : List Char) : Option (Captures × Nat) :=
  match it with
  | .lit c =>
    match s with
    | [] => none
    | x :: xs => if x = c then (cont xs).map (fun r => (r.1, r.2 + 1)) else none
  | .rep name one cls =>
    let maxk := (s.takeWhile cls).length
    let mink := if one then 1 else 0
    if maxk < mink then none
    else
      tryDown (fun k => (cont (s.drop k)).map (fun r =>
        match name with
        | some nm => ((nm, String.mk (s.take k)) :: r.1, r.2 + k)
        | none => (r.1, r.2 + k))) mink (maxk - mink)

/-- Match a whole pattern (sequence of items) at the front of the input. -/
def matchSeq (items : List RItem) : List Char → Option (Captures × Nat) :=
  items.foldr itemStep (fun _ => some ([], 0))

/-- Leftmost match: the first start position (scanning left to right) at
which the pattern matches; returns start offset, captures, match length. -/
def findMatch (items : List RItem) : List Char → Option (Nat × Captures × Nat)
  | [] => (matchSeq items []).map (fun r => (0, r.1, r.2))
  | x :: xs =>
    match matchSeq items (x :: xs) with
    | some r => some (0, r.1, r.2)
    | none => (findMatch items xs).map (fun r => (r.1 + 1, r.2.1, r.2.2))

/-- Successive non-overlapping matches; after a match the search resumes at
its end (one character further for an empty match), as Go `FindAll` does.
The fuel argument bounds the iteration. -/
def findAllAux (items : List RItem) : Nat → List Char → List Captures
  | 0, _ => []
  | fuel+1, s =>
    match findMatch items s with
    | none => []
    | some (st, caps, n) => caps :: findAllAux items fuel (s.drop (st + max n 1))

/-- Go `re.FindAllSubmatch(line, -1)` (main.go:247), restricted to the
captures of each match. -/
def FindAllSubmatch (items : List RItem) (s : List Char) : List Captures :=
  findAllAux items (s.length + 1) s

/-- Character class `[^:]` (path segment of the predefined patterns). -/
def nonColon (c : Char) : Bool := !(c = ':')

/-- Go regexp `\d` = `[0-9]`. -/
def goDigit (c : Char) : Bool := c.isDigit

/-- Go regexp `\s` = `[\t\n\f\r ]`. -/
def goSpace (c : Char) : Bool :=
  c = '\t' || c = '\n' || c = '\x0c' || c = '\r' || c = ' '

/-- Go regexp `.` (any character but newline). -/
def dotAny (c : Char) : Bool := !(c = '\n')

/-- Go `predefinedPatterns` (main.go:37-40), the two pattern strings. -/
def predefinedPatterns : List (String × String) :=
  [("PATH:LINE:COL:MESSAGE",
    "(?P<path>[^:]+):(?P<line>\\d+):(?P<col>\\d+):\\s*(?P<message>.*)"),
   ("PATH:LINE:MESSAGE",
    "(?P<path>[^:]+):(?P<line>\\d+):\\s*(?P<message>.*)")]

/-- Compiled form of the predefined `PATH:LINE:COL:MESSAGE` pattern
`(?P<path>[^:]+):(?P<line>\d+):(?P<col>\d+):\s*(?P<message>.*)`. -/
def patternPLCM : List RItem :=
  [ .rep (some "path") true nonColon, .lit ':',
    .rep (some "line") true goDigit, .lit ':',
    .rep (some "col") true goDigit, .lit ':',
    .rep none false goSpace,
    .rep (some "message") false dotAny ]

/-- Compiled form of the predefined `PATH:LINE:MESSAGE` pattern
`(?P<path>[^:]+):(?P<line>\d+):\s*(?P<message>.*)`. -/
def patternPLM : List RItem :=
  [ .rep (some "path") true nonColon, .lit ':',
    .rep (some "line") true goDigit, .lit ':',
    .rep none false goSpace,
    .rep (some "message") false dotAny ]

/-!
Field extraction (`executeLinter`, main.go:246-286).  Fatal errors
(`kingpin.FatalIfError`, `kingpin.Fatalf`) terminate the whole process; they
are modelled with `Except.error` carrying the fatal message.
-/

deriving instance DecidableEq for Except

/-- Value of a list of decimal digit characters. -/
def digitsToNat (l : List Char) : Nat :=
  l.foldl (fun a c => a * 10 + (c.toNat - 48)) 0

/-- Go `strconv.ParseInt(part, 10, 32)` (main.go:259, 264): an optional sign
followed by a nonempty run of ASCII decimal digits, with the value required
to fit in a signed 32-bit integer; `none` models a non-nil error. -/
def stripSign : List Char → Int × List Char
  | '+' :: rest => (1, rest)
  | '-' :: rest => (-1, rest)
  | l => (1, l)

/-- See `stripSign`; the sign/digits split of Go `strconv.ParseInt`. -/
def parseInt32 (s : String) : Option Int :=
  let sign := (stripSign s.data).1
  let ds := (stripSign s.data).2
  if ds = [] then none
  else if ds.all Char.isDigit then
    let v : Int := sign * (digitsToNat ds : Int)
    if -(2^31) ≤ v ∧ v ≤ 2^31 - 1 then some v else none
  else none

/-- Test whether `p` occurs at the front of the second list. -/
def leadsWith : List Char → List Char → Bool
  | [], _ => true
  | _ :: _, [] => false
  | p :: ps, x :: xs => p = x && leadsWith ps xs

/-- Replace every non-overlapping occurrence of `pat` (left to right) by
`rep`; fuel-driven recursion, `fuel = s.length` suffices. -/
def replaceAllAux (pat rep : List Char) : Nat → List Char → List Char
  | _, [] => []
  | 0, s => s
  | fuel+1, x :: xs =>
    if pat ≠ [] ∧ leadsWith pat (x :: xs) then
      rep ++ replaceAllAux pat rep fuel ((x :: xs).drop pat.length)
    else x :: replaceAllAux pat rep fuel xs

/-- Go `strings.Replace(s, pat, rep, -1)` (main.go:278). -/
def replaceAll (s pat rep : String) : String :=
  String.mk (replaceAllAux pat.data rep.data s.data.length s.data)

/-- The zero-value `&Issue{}` allocated per matched line (main.go:251). -/
def emptyIssue : Issue :=
  { severity := "", path := "", line := 0, col := 0, message := "" }

/-- One iteration of the `switch name` over `re.SubexpNames()`
(main.go:252-276): assign the captured part to the field named by the
group, parsing `line`/`col` as 32-bit integers (parse failure and unknown
group names are fatal). -/
def applyGroup (issue : Issue) (g : String × String) : Except String Issue :=
  let nm := g.1
  let part := g.2
  if nm = "path" then .ok { issue with path := part }
  else if nm = "line" then
    match parseInt32 part with
    | some n => .ok { issue with line := n }
    | none => .error "line matched invalid integer"
  else if nm = "col" then
    match parseInt32 part with
    | some n => .ok { issue with col := n }
    | none => .error "col matched invalid integer"
  else if nm = "message" then .ok { issue with message := part }
  else if nm = "" then .ok issue
  else .error ("invalid subgroup " ++ nm)

/-- Iteration of the `for i, name := range re.SubexpNames()` loop over the
remaining captures; a fatal field error aborts. -/
def buildIssueAux : Issue → Captures → Except String Issue
  | issue, [] => .ok issue
  | issue, g :: gs =>
    match applyGroup issue g with
    | .error e => .error e
    | .ok issue2 => buildIssueAux issue2 gs

/-- Populate an `Issue` from the captures of one match (main.go:251-276). -/
def buildIssue (caps : Captures) : Except String Issue :=
  buildIssueAux emptyIssue caps

/-- Per-line body of the extraction loop (main.go:246-286): run
`FindAllSubmatch`; a line with no match contributes nothing; otherwise an
`Issue` is built from `groups[0]` (the first match only), the message
override for the tool is substituted, and the severity override (or the
default `"error"`) is assigned. -/
def processLine (sevMap msgMap : List (String × String)) (name : String)
    (items : List RItem) (line : List Char) : Except String (List Issue) :=
  match FindAllSubmatch items line with
  | [] => .ok []
  | g0 :: _ =>
    match buildIssue g0 with
    | .error e => .error e
    | .ok issue0 =>
      let issue1 :=
        match List.lookup name msgMap with
        | some m => { issue0 with message := replaceAll m "{message}" issue0.message }
        | none => issue0
      let issue2 :=
        match List.lookup name sevMap with
        | some sev => { issue1 with severity := sev }
        | none => { issue1 with severity := "error" }
      .ok [issue2]

/-- Go `bytes.Split(out, []byte("\n"))` (main.go:246). -/
def splitOnChar (c : Char) : List Char → List (List Char)
  | [] => [[]]
  | x :: xs =>
    if x = c then [] :: splitOnChar c xs
    else
      match splitOnChar c xs with
      | [] => [[x]]
      | l :: ls => (x :: l) :: ls

/-- The extraction phase of `executeLinter` (main.go:246-286) over the whole
captured output: every line in order, collecting issues in emission order;
a fatal error anywhere aborts.  `sevMap` and `msgMap` are the (default plus
user-merged) `linterSeverityFlag` and `linterMessageOverrideFlag` maps. -/
def extractLines (sevMap msgMap : List (String × String)) (name : String)
    (items : List RItem) : List Issue → List (List Char) →
    Except String (List Issue)
  | acc, [] => .ok acc
  | acc, line :: rest =>
    match processLine sevMap msgMap name items line with
    | .error e => .error e
    | .ok is => extractLines sevMap msgMap name items (acc ++ is) rest

/-- See `extractLines`; the whole loop body of main.go:246-286. -/
def extractIssues (sevMap msgMap : List (String × String)) (name : String)
    (items : List RItem) (out : String) : Except String (List Issue) :=
  extractLines sevMap msgMap name items [] (splitOnChar '\n' out.data)

/-- Outcome of `cmd.CombinedOutput()` (main.go:236-244): either the
subprocess could not be launched at all (a non-`ExitError` error), or it ran
to completion with combined output, exiting zero or non-zero. -/
inductive RunResult where
  | launchFailure
  | exited (exitSuccess : Bool) (out : String)

/-- Go `executeLinter` (main.go:222-290) after pattern compilation: a launch
failure returns early with no issues (soft failure); an `ExitError` is only
debug-logged and the combined output is still extracted. -/
def executeLinter (sevMap msgMap : List (String × String)) (name : String)
    (items : List RItem) (res : RunResult) : Except String (List Issue) :=
  match res with
  | .launchFailure => .ok []
  | .exited _ out => extractIssues sevMap msgMap name items out

/-- Output stage of `main` (main.go:210-217): after all tasks finish, drain
the aggregation channel in arrival order, drop issues whose rendered line
matches the exclusion filter, and print each remaining rendered line.  No
sort is applied.  `filter` models the compiled `--exclude` matcher. -/
def mainOutput (filter : Option (String → Bool)) (issues : List Issue) :
    List String :=
  issues.filterMap (fun i =>
    let s := Issue.String i
    match filter with
    | some f => if f s then none else some s
    | none => some s)

/-- A literal user-suppliable pattern `(?P<path>[^:]+):(?P<line>\d+):` whose
message does not extend to the end of the line, so a single physical line
can contain several matches. -/
def patternShort : List RItem :=
  [ .rep (some "path") true nonColon, .lit ':',
    .rep (some "line") true goDigit, .lit ':' ]

/-!
Worker-pool semaphore (main.go:189-207).  `main` creates
`concurrency := make(chan bool, K)`; each task sends `true` before running
`executeLinter` and receives afterwards, so the number of tasks inside their
subprocess-and-extraction pipeline equals the number of buffered tokens,
which the channel caps at `K`.
-/

/-- Phase of one linter task goroutine. -/
inductive TaskState where
  | pending
  | running
  | done
deriving DecidableEq, Repr

/-- Number of tasks currently inside the semaphore-guarded section. -/
def countRunning (ts : List TaskState) : Nat :=
  ts.countP (fun t => decide (t = TaskState.running))

/-- One scheduling transition: a pending task passes `concurrency <- true`
only while fewer than `K` tokens are buffered, i.e. fewer than `K` tasks are
running; a running task finishes and releases its token. -/
inductive SchedStep (K : Nat) : List TaskState → List TaskState → Prop where
  | start (pre post : List TaskState) :
      countRunning (pre ++ TaskState.pending :: post) < K →
      SchedStep K (pre ++ TaskState.pending :: post)
        (pre ++ TaskState.running :: post)
  | finish (pre post : List TaskState) :
      SchedStep K (pre ++ TaskState.running :: post)
        (pre ++ TaskState.done :: post)

/-- States of the worker pool reachable from `n` not-yet-admitted tasks. -/
inductive SchedReachable (K n : Nat) : List TaskState → Prop where
  | init : SchedReachable K n (List.replicate n TaskState.pending)
  | step {s t : List TaskState} :
      SchedReachable K n s → SchedStep K s t → SchedReachable K n t

/-! ### General lemmas -/

theorem countRunning_middle (a b : List TaskState) (t : TaskState) :
    countRunning (a ++ t :: b) =
      countRunning a + countRunning b +
        (if t = TaskState.running then 1 else 0) := by
  simp only [countRunning, List.countP_append, List.countP_cons,
    decide_eq_true_eq]
  omega

theorem countRunning_replicate_pending (n : Nat) :
    countRunning (List.replicate n TaskState.pending) = 0 := by
  simp [countRunning, List.countP_replicate]

theorem processLine_severity {sevMap msgMap : List (String × String)}
    {name : String} {items : List RItem} {line : List Char}
    {issues : List Issue}
    (h : processLine sevMap msgMap name items line = .ok issues) :
    ∀ i ∈ issues, i.severity = (List.lookup name sevMap).getD "error" := by
  cases hf : FindAllSubmatch items line with
  | nil =>
    simp only [processLine, hf] at h
    injection h with h2
    subst h2
    intro i hi
    simp at hi
  | cons g0 gs =>
    simp only [processLine, hf] at h
    cases hb : buildIssue g0 with
    | error e => simp only [hb] at h; cases h
    | ok issue0 =>
      simp only [hb] at h
      injection h with h2
      subst h2
      intro i hi
      rw [List.mem_singleton] at hi
      subst hi
      cases hl : List.lookup name sevMap with
      | some sev => simp [hl]
      | none => simp [hl]

theorem extractLines_severity {sevMap msgMap : List (String × String)}
    {name : String} {items : List RItem} :
    ∀ {lines : List (List Char)} {acc issues : List Issue},
      (∀ i ∈ acc, i.severity = (List.lookup name sevMap).getD "error") →
      extractLines sevMap msgMap name items acc lines = .ok issues →
      ∀ i ∈ issues, i.severity = (List.lookup name sevMap).getD "error" := by
  intro lines
  induction lines with
  | nil =>
    intro acc issues hacc h
    simp only [extractLines] at h
    injection h with h2
    subst h2
    exact hacc
  | cons line rest ih =>
    intro acc issues hacc h
    simp only [extractLines] at h
    cases hp : processLine sevMap msgMap name items line with
    | error e => simp only [hp] at h; cases h
    | ok is =>
      simp only [hp] at h
      refine ih ?_ h
      intro i hi
      rcases List.mem_append.mp hi with h1 | h2
      · exact hacc i h1
      · exact processLine_severity hp i h2

theorem extractIssues_severity {sevMap msgMap : List (String × String)}
    {name : String} {items : List RItem} {out : String}
    {issues : List Issue}
    (h : extractIssues sevMap msgMap name items out = .ok issues) :
    ∀ i ∈ issues, i.severity = (List.lookup name sevMap).getD "error" :=
  extractLines_severity (by intro i hi; simp at hi) h

/-! ### Claims -/

/-- C9: in every reachable state of the worker pool, at most `K` tasks are
inside their subprocess-and-extraction pipeline simultaneously; tasks
beyond the ceiling remain pending until admitted. -/
theorem c9_concurrency_bound (K n : Nat) (s : List TaskState)
    (h : SchedReachable K n s) : countRunning s ≤ K := by
  induction h with
  | init => simp [countRunning_replicate_pending]
  | step _ hst ih =>
    cases hst with
    | start pre post hlt =>
      rw [countRunning_middle] at hlt ih ⊢
      simp only [reduceCtorEq, if_false, if_true, if_pos, if_neg] at *
      omega
    | finish pre post =>
      rw [countRunning_middle] at ih ⊢
      simp at ih ⊢
      omega

/-- Witness for C9: with ceiling 2 and three tasks, the state reached by
admitting two tasks satisfies the bound. -/
theorem c9_witness :
    countRunning [TaskState.running, TaskState.running, TaskState.pending] ≤ 2 := by
  apply c9_concurrency_bound 2 3
  have h1 : SchedStep 2
      [TaskState.pending, TaskState.pending, TaskState.pending]
      [TaskState.running, TaskState.pending, TaskState.pending] :=
    SchedStep.start [] [TaskState.pending, TaskState.pending] (by decide)
  have h2 : SchedStep 2
      [TaskState.running, TaskState.pending, TaskState.pending]
      [TaskState.running, TaskState.running, TaskState.pending] :=
    SchedStep.start [TaskState.running] [TaskState.pending] (by decide)
  exact SchedReachable.step (SchedReachable.step SchedReachable.init h1) h2

/-- C7: every Issue produced by a tool run carries the tool's configured
severity override when one is present, and the default `error` severity
when none is configured. -/
theorem c7_severity_assignment (sevMap msgMap : List (String × String))
    (name : String) (items : List RItem) (res : RunResult)
    (issues : List Issue)
    (h : executeLinter sevMap msgMap name items res = .ok issues) :
    ∀ i ∈ issues,
      i.severity = match List.lookup name sevMap with
                   | some sev => sev
                   | none => "error" := by
  have hm : (match List.lookup name sevMap with
             | some sev => sev
             | none => "error") = (List.lookup name sevMap).getD "error" := by
    cases List.lookup name sevMap <;> rfl
  rw [hm]
  cases res with
  | launchFailure =>
    simp only [executeLinter] at h
    injection h with h2
    subst h2
    intro i hi
    simp at hi
  | exited ok out => exact extractIssues_severity h

/-- Witness for C7: a tool with override `warning` yields a warning Issue. -/
theorem c7_witness :
    executeLinter [("t", "warning")] [] "t" patternPLCM
        (.exited true "a.go:1:2: x\n") =
      .ok [{ severity := "warning", path := "a.go", line := 1, col := 2,
             message := "x" }] ∧
    ({ severity := "warning", path := "a.go", line := 1, col := 2,
       message := "x" } : Issue).severity = "warning" := by
  constructor
  · decide
  · have h := c7_severity_assignment [("t", "warning")] [] "t" patternPLCM
      (.exited true "a.go:1:2: x\n")
      [{ severity := "warning", path := "a.go", line := 1, col := 2,
         message := "x" }] (by decide)
    exact (h _ (List.mem_singleton.mpr rfl)).trans (by decide)

/-- C4 counterexample: a user-supplied severity override map may carry any
string; the override `banana` is copied verbatim into the produced Issue,
which therefore carries a severity outside the closed set
{warning, error}. -/
theorem c4_counterexample :
    executeLinter [("t", "banana")] [] "t" patternPLCM
        (.exited true "a.go:1:2: x\n") =
      .ok [{ severity := "banana", path := "a.go", line := 1, col := 2,
             message := "x" }] ∧
    ¬ (({ severity := "banana", path := "a.go", line := 1, col := 2,
          message := "x" } : Issue).severity = "warning" ∨
       ({ severity := "banana", path := "a.go", line := 1, col := 2,
          message := "x" } : Issue).severity = "error") := by
  decide

/-- C4 as amended: every produced Issue carries exactly one severity, equal
to the configured override string (verbatim, unvalidated) or the default
`error`; it lies in the closed set {warning, error} whenever every override
value in the configured severity map does, as the built-in defaults do. -/
theorem c4_severity_closed (sevMap msgMap : List (String × String))
    (name : String) (items : List RItem) (res : RunResult)
    (issues : List Issue)
    (hvals : ∀ p ∈ sevMap, p.2 = "warning" ∨ p.2 = "error")
    (h : executeLinter sevMap msgMap name items res = .ok issues) :
    ∀ i ∈ issues, i.severity = "warning" ∨ i.severity = "error" := by
  intro i hi
  cases res with
  | launchFailure =>
    simp only [executeLinter] at h
    injection h with h2
    subst h2
    simp at hi
  | exited ok out =>
    have hs := extractIssues_severity h i hi
    cases hl : List.lookup name sevMap with
    | none => rw [hl] at hs; right; simpa using hs
    | some v =>
      rw [hl] at hs
      simp only [Option.getD_some] at hs
      have hmem : (name, v) ∈ sevMap := by
        rcases List.lookup_eq_some_iff.mp hl with ⟨l1, l2, rfl, -⟩
        simp
      have hv := hvals _ hmem
      rw [hs]
      exact hv

/-- Witness for C4 (amended) at a concrete valid configuration. -/
theorem c4_witness :
    (∀ p ∈ [("t", "warning")], p.2 = "warning" ∨ p.2 = "error") ∧
    (({ severity := "warning", path := "a.go", line := 1, col := 2,
        message := "x" } : Issue).severity = "warning" ∨
     ({ severity := "warning", path := "a.go", line := 1, col := 2,
        message := "x" } : Issue).severity = "error") :=
  ⟨by decide,
   c4_severity_closed [("t", "warning")] [] "t" patternPLCM
     (.exited true "a.go:1:2: x\n")
     [{ severity := "warning", path := "a.go", line := 1, col := 2,
        message := "x" }]
     (by decide) (by decide) _ (List.mem_singleton.mpr rfl)⟩

/-- C2 counterexample: on the literal pattern `(?P<path>[^:]+):(?P<line>\d+):`
the line `a:1:b:2:` contains two non-overlapping matches, yet extraction
builds exactly one Issue (from the first match) — not two. -/
theorem c2_counterexample :
    (FindAllSubmatch patternShort "a:1:b:2:".data).length = 2 ∧
    processLine [] [] "t" patternShort "a:1:b:2:".data =
      .ok [{ severity := "error", path := "a", line := 1, col := 0,
             message := "" }] := by
  decide

/-- C2 as amended: extraction computes all non-overlapping matches of the
matcher on each line, but builds at most one Issue per line — exactly one
(from the first match) when the line matches at all, and none otherwise. -/
theorem c2_one_issue_per_line (sevMap msgMap : List (String × String))
    (name : String) (items : List RItem) (line : List Char)
    (issues : List Issue)
    (h : processLine sevMap msgMap name items line = .ok issues) :
    issues.length ≤ 1 ∧ (FindAllSubmatch items line = [] ↔ issues = []) := by
  cases hf : FindAllSubmatch items line with
  | nil =>
    simp only [processLine, hf] at h
    injection h with h2
    subst h2
    simp
  | cons g0 gs =>
    simp only [processLine, hf] at h
    cases hb : buildIssue g0 with
    | error e => simp only [hb] at h; cases h
    | ok issue0 =>
      simp only [hb] at h
      injection h with h2
      subst h2
      simp

/-- Witness for C2 (amended) at the two-match line. -/
theorem c2_witness :
    ([{ severity := "error", path := "a", line := 1, col := 0,
        message := "" }] : List Issue).length ≤ 1 ∧
    (FindAllSubmatch patternShort "a:1:b:2:".data = [] ↔
      ([{ severity := "error", path := "a", line := 1, col := 0,
          message := "" }] : List Issue) = []) :=
  c2_one_issue_per_line [] [] "t" patternShort "a:1:b:2:".data _ (by decide)

/-- C1 (code bug): `main` prints issues in channel-arrival order — no sort
is ever applied — so with arrival order `b.go` before `a.go` the output
keeps `b.go` first even though `a.go < b.go`; moreover the unused
`Issues.Less` is an OR of the three per-key comparisons, not a
lexicographic comparison, and holds in both directions for this pair. -/
theorem c1_output_not_sorted :
    mainOutput none
        [{ severity := "error", path := "b.go", line := 1, col := 1,
           message := "m" },
         { severity := "error", path := "a.go", line := 2, col := 2,
           message := "m" }] =
      ["b.go:1:1:error: m", "a.go:2:2:error: m"] ∧
    goStringLt
        ({ severity := "error", path := "a.go", line := 2, col := 2,
           message := "m" } : Issue).path
        ({ severity := "error", path := "b.go", line := 1, col := 1,
           message := "m" } : Issue).path = true ∧
    Issues.Less
        { severity := "error", path := "a.go", line := 2, col := 2,
          message := "m" }
        { severity := "error", path := "b.go", line := 1, col := 1,
          message := "m" } = true ∧
    Issues.Less
        { severity := "error", path := "b.go", line := 1, col := 1,
          message := "m" }
        { severity := "error", path := "a.go", line := 2, col := 2,
          message := "m" } = true := by
  decide

/-- C6: extracting the raw output `a.go:5:3: bad\n` with the predefined
`PATH:LINE:COL:MESSAGE` pattern yields exactly one Issue with path `a.go`,
line 5, col 3, message `bad` (and the default severity `error`). -/
theorem c6_predefined_extraction :
    extractIssues [] [] "mytool" patternPLCM "a.go:5:3: bad\n" =
      .ok [{ severity := "error", path := "a.go", line := 5, col := 3,
             message := "bad" }] := by
  decide

/-- C8: a launch failure is soft — the task contributes zero issues and no
fatal error; a subprocess that runs but exits non-zero is treated exactly
like a successful exit, its combined output still being extracted. -/
theorem c8_soft_failures :
    (∀ (sevMap msgMap : List (String × String)) (name : String)
       (items : List RItem),
       executeLinter sevMap msgMap name items .launchFailure = .ok []) ∧
    (∀ (sevMap msgMap : List (String × String)) (name : String)
       (items : List RItem) (out : String),
       executeLinter sevMap msgMap name items (.exited false out) =
         extractIssues sevMap msgMap name items out) ∧
    (∀ (sevMap msgMap : List (String × String)) (name : String)
       (items : List RItem) (out : String),
       executeLinter sevMap msgMap name items (.exited false out) =
         executeLinter sevMap msgMap name items (.exited true out)) :=
  ⟨fun _ _ _ _ => rfl, fun _ _ _ _ _ => rfl, fun _ _ _ _ _ => rfl⟩

/-- C5: every Issue is rendered bit-exactly as
`<path>:<line>:<col-or-empty>:<severity>: <message>`, and a zero column
renders the column field empty, producing two consecutive colons. -/
theorem c5_render_bit_exact :
    (∀ i : Issue, Issue.String i =
        i.path ++ ":" ++ toString i.line ++ ":" ++
          (if i.col = 0 then "" else toString i.col) ++ ":" ++
          i.severity ++ ": " ++ i.message) ∧
    (∀ (sev p msg : String) (l : Int),
        Issue.String { severity := sev, path := p, line := l, col := 0,
                       message := msg } =
          p ++ ":" ++ toString l ++ "::" ++ sev ++ ": " ++ msg) := by
  constructor
  · intro i; rfl
  · intro sev p msg l
    have h2 : ("::" : String) = ":" ++ ":" := rfl
    rw [h2]
    apply String.ext
    simp [Issue.String]

theorem tryDown_top {g : Nat → Option α} {mink fuel : Nat} {r : α}
    (h : g (mink + fuel) = some r) : tryDown g mink fuel = some r := by
  cases fuel with
  | zero => simpa using h
  | succ f =>
    have e : mink + (f + 1) = mink + f + 1 := by omega
    rw [e] at h
    simp [tryDown, h]

theorem matchSeq_cons (it : RItem) (items : List RItem) (s : List Char) :
    matchSeq (it :: items) s = itemStep it (matchSeq items) s := rfl

theorem matchSeq_nil (s : List Char) : matchSeq [] s = some ([], 0) := rfl

theorem itemStep_lit {ch : Char} {cont : List Char → Option (Captures × Nat)}
    {rest : List Char} {r : Captures × Nat} (h : cont rest = some r) :
    itemStep (.lit ch) cont (ch :: rest) = some (r.1, r.2 + 1) := by
  simp [itemStep, h]

theorem itemStep_rep {nm : Option String} {one : Bool} {cls : Char → Bool}
    {cont : List Char → Option (Captures × Nat)} {a b : List Char}
    {r : Captures × Nat}
    (ha : ∀ x ∈ a, cls x = true) (hb : b.takeWhile cls = [])
    (hone : one = true → a ≠ []) (hcont : cont b = some r) :
    itemStep (.rep nm one cls) cont (a ++ b) =
      some (match nm with
            | some s => ((s, String.mk a) :: r.1, r.2 + a.length)
            | none => (r.1, r.2 + a.length)) := by
  have htw : (a ++ b).takeWhile cls = a := by
    rw [List.takeWhile_append_of_pos ha, hb, List.append_nil]
  have hmink : (if one then 1 else 0) ≤ a.length := by
    cases one with
    | false => simp
    | true =>
      have hne := hone rfl
      cases a with
      | nil => exact absurd rfl hne
      | cons x xs => simp
  simp only [itemStep, htw]
  rw [if_neg (Nat.not_lt.mpr hmink)]
  apply tryDown_top
  rw [Nat.add_sub_cancel' hmink]
  rw [List.drop_left, List.take_left, hcont]
  cases nm with
  | some s => simp [Option.map]
  | none => simp [Option.map]

theorem takeWhile_goDigit_colon (m : List Char) :
    (':' :: m).takeWhile goDigit = [] := by
  have : goDigit ':' = false := rfl
  simp [List.takeWhile_cons, this]

theorem matchSeq_PLCM {p l c m : List Char}
    (hp : p ≠ []) (hpc : ∀ x ∈ p, nonColon x = true)
    (hl : l ≠ []) (hld : ∀ x ∈ l, goDigit x = true)
    (hc : c ≠ []) (hcd : ∀ x ∈ c, goDigit x = true)
    (hmw : m.takeWhile goSpace = [])
    (hmn : ∀ x ∈ m, dotAny x = true) :
    matchSeq patternPLCM (p ++ ':' :: (l ++ ':' :: (c ++ ':' :: m))) =
      some ([("path", String.mk p), ("line", String.mk l),
             ("col", String.mk c), ("message", String.mk m)],
            (p ++ ':' :: (l ++ ':' :: (c ++ ':' :: m))).length) := by
  have h8 : matchSeq [.rep (some "message") false dotAny] m =
      some ([("message", String.mk m)], m.length) := by
    have := @itemStep_rep (some "message") false dotAny (matchSeq []) m []
      ([], 0) hmn (by simp) (by simp) (matchSeq_nil [])
    rw [matchSeq_cons]
    simpa using this
  have h7 : matchSeq [.rep none false goSpace,
      .rep (some "message") false dotAny] m =
      some ([("message", String.mk m)], m.length) := by
    have := @itemStep_rep none false goSpace
      (matchSeq [.rep (some "message") false dotAny]) [] m
      ([("message", String.mk m)], m.length)
      (by simp) hmw (by simp) h8
    rw [matchSeq_cons]
    simpa using this
  have h6 : matchSeq (.lit ':' :: [.rep none false goSpace,
      .rep (some "message") false dotAny]) (':' :: m) =
      some ([("message", String.mk m)], m.length + 1) := by
    rw [matchSeq_cons]
    exact itemStep_lit h7
  have h5 : matchSeq (.rep (some "col") true goDigit :: .lit ':' ::
      [.rep none false goSpace, .rep (some "message") false dotAny])
      (c ++ ':' :: m) =
      some ([("col", String.mk c), ("message", String.mk m)],
            m.length + 1 + c.length) := by
    rw [matchSeq_cons]
    exact itemStep_rep hcd (takeWhile_goDigit_colon m) (fun _ => hc) h6
  have h4 : matchSeq (.lit ':' :: .rep (some "col") true goDigit :: .lit ':' ::
      [.rep none false goSpace, .rep (some "message") false dotAny])
      (':' :: (c ++ ':' :: m)) =
      some ([("col", String.mk c), ("message", String.mk m)],
            m.length + 1 + c.length + 1) := by
    rw [matchSeq_cons]
    exact itemStep_lit h5
  have h3 : matchSeq (.rep (some "line") true goDigit :: .lit ':' ::
      .rep (some "col") true goDigit :: .lit ':' ::
      [.rep none false goSpace, .rep (some "message") false dotAny])
      (l ++ ':' :: (c ++ ':' :: m)) =
      some ([("line", String.mk l), ("col", String.mk c),
             ("message", String.mk m)],
            m.length + 1 + c.length + 1 + l.length) := by
    rw [matchSeq_cons]
    exact itemStep_rep hld (takeWhile_goDigit_colon _) (fun _ => hl) h4
  have h2 : matchSeq (.lit ':' :: .rep (some "line") true goDigit :: .lit ':' ::
      .rep (some "col") true goDigit :: .lit ':' ::
      [.rep none false goSpace, .rep (some "message") false dotAny])
      (':' :: (l ++ ':' :: (c ++ ':' :: m))) =
      some ([("line", String.mk l), ("col", String.mk c),
             ("message", String.mk m)],
            m.length + 1 + c.length + 1 + l.length + 1) := by
    rw [matchSeq_cons]
    exact itemStep_lit h3
  have h1 := @itemStep_rep (some "path") true nonColon
    (matchSeq (.lit ':' :: .rep (some "line") true goDigit :: .lit ':' ::
      .rep (some "col") true goDigit :: .lit ':' ::
      [.rep none false goSpace, .rep (some "message") false dotAny]))
    p (':' :: (l ++ ':' :: (c ++ ':' :: m)))
    ([("line", String.mk l), ("col", String.mk c), ("message", String.mk m)],
     m.length + 1 + c.length + 1 + l.length + 1)
    hpc (by have : nonColon ':' = false := rfl; simp [List.takeWhile_cons, this])
    (fun _ => hp) h2
  show matchSeq (.rep (some "path") true nonColon :: _) _ = _
  rw [matchSeq_cons]
  rw [h1]
  congr 2
  simp [List.length_append]
  omega

theorem findMatch_of_matchSeq {items : List RItem} {s : List Char}
    {r : Captures × Nat} (h : matchSeq items s = some r) :
    findMatch items s = some (0, r.1, r.2) := by
  cases s with
  | nil => simp [findMatch, h]
  | cons x xs => simp [findMatch, h]

theorem findAllSubmatch_whole {items : List RItem} {s : List Char}
    {caps : Captures} (hs : s ≠ [])
    (h : matchSeq items s = some (caps, s.length))
    (hnil : matchSeq items [] = none) :
    FindAllSubmatch items s = [caps] := by
  have hfm := findMatch_of_matchSeq h
  have hlen : 1 ≤ s.length := by
    cases s with
    | nil => exact absurd rfl hs
    | cons x xs => simp
  unfold FindAllSubmatch
  rw [findAllAux, hfm]
  have hmax : max s.length 1 = s.length := by omega
  simp only [Nat.zero_add, hmax]
  rw [List.drop_length]
  have hfmnil : findMatch items [] = none := by
    simp [findMatch, hnil]
  cases hl : s.length with
  | zero => omega
  | succ k => rw [findAllAux, hfmnil]

theorem buildIssue_PLCM (P L C M : String) :
    buildIssue [("path", P), ("line", L), ("col", C), ("message", M)] =
      match parseInt32 L with
      | none => .error "line matched invalid integer"
      | some ln =>
        match parseInt32 C with
        | none => .error "col matched invalid integer"
        | some cl =>
          .ok { severity := "", path := P, line := ln, col := cl,
                message := M } := by
  cases hL : parseInt32 L with
  | none =>
    simp [buildIssue, buildIssueAux, applyGroup, emptyIssue, hL]
  | some ln =>
    cases hC : parseInt32 C with
    | none =>
      simp [buildIssue, buildIssueAux, applyGroup, emptyIssue, hL, hC]
    | some cl =>
      simp [buildIssue, buildIssueAux, applyGroup, emptyIssue, hL, hC]

theorem splitOnChar_single {ch : Char} {l : List Char}
    (h : ∀ x ∈ l, x ≠ ch) : splitOnChar ch l = [l] := by
  induction l with
  | nil => rfl
  | cons x xs ih =>
    have hx : x ≠ ch := h x (by simp)
    have hr : splitOnChar ch xs = [xs] := ih (fun y hy => h y (by simp [hy]))
    simp [splitOnChar, hx, hr]

theorem toDigitsCore_fuel :
    ∀ n f1 f2 ds, n < f1 → n < f2 →
      Nat.toDigitsCore 10 f1 n ds = Nat.toDigitsCore 10 f2 n ds := by
  intro n
  induction n using Nat.strong_induction_on with
  | _ n ih =>
    intro f1 f2 ds h1 h2
    match f1, f2 with
    | g1+1, g2+1 =>
      simp only [Nat.toDigitsCore]
      by_cases hz : n / 10 = 0
      · simp [hz]
      · simp only [hz, if_false]
        have hn : 0 < n := by
          rcases Nat.eq_zero_or_pos n with h | h
          · subst h; simp at hz
          · exact h
        have hd : n / 10 < n := Nat.div_lt_self hn (by norm_num)
        exact ih (n / 10) hd g1 g2 _ (by omega) (by omega)

theorem toDigitsCore_append :
    ∀ n f ds, n < f →
      Nat.toDigitsCore 10 f n ds = Nat.toDigitsCore 10 f n [] ++ ds := by
  intro n
  induction n using Nat.strong_induction_on with
  | _ n ih =>
    intro f ds h
    match f with
    | g+1 =>
      simp only [Nat.toDigitsCore]
      by_cases hz : n / 10 = 0
      · simp [hz]
      · simp only [hz, if_false]
        have hn : 0 < n := by
          rcases Nat.eq_zero_or_pos n with h' | h'
          · subst h'; simp at hz
          · exact h'
        have hd : n / 10 < n := Nat.div_lt_self hn (by norm_num)
        have hdg : n / 10 < g := by
          have : n / 10 < n := hd
          omega
        rw [ih (n / 10) hd g ((n % 10).digitChar :: ds) hdg,
            ih (n / 10) hd g [(n % 10).digitChar] hdg]
        simp

theorem toDigits_small {n : Nat} (h : n < 10) :
    Nat.toDigits 10 n = [Nat.digitChar n] := by
  have hz : n / 10 = 0 := Nat.div_eq_of_lt h
  simp [Nat.toDigits, Nat.toDigitsCore, hz, Nat.mod_eq_of_lt h]

theorem toDigits_step {n : Nat} (h : 10 ≤ n) :
    Nat.toDigits 10 n = Nat.toDigits 10 (n / 10) ++ [Nat.digitChar (n % 10)] := by
  have hz : n / 10 ≠ 0 := by omega
  have e1 : Nat.toDigits 10 n = Nat.toDigitsCore 10 (n + 1) n [] := rfl
  have e2 : Nat.toDigitsCore 10 (n + 1) n [] =
      Nat.toDigitsCore 10 n (n / 10) [Nat.digitChar (n % 10)] := by
    simp only [Nat.toDigitsCore]
    simp [hz]
  rw [e1, e2]
  rw [toDigitsCore_fuel (n / 10) n ((n / 10) + 1)
        [Nat.digitChar (n % 10)] (by omega) (by omega)]
  rw [toDigitsCore_append (n / 10) ((n / 10) + 1)
        [Nat.digitChar (n % 10)] (by omega)]
  rfl

theorem digitChar_isDigit {m : Nat} (h : m < 10) :
    (Nat.digitChar m).isDigit = true := by
  interval_cases m <;> decide

theorem digitChar_toNat {m : Nat} (h : m < 10) :
    (Nat.digitChar m).toNat = 48 + m := by
  interval_cases m <;> decide

theorem toDigits_all_digits (n : Nat) :
    ∀ c ∈ Nat.toDigits 10 n, c.isDigit = true := by
  induction n using Nat.strong_induction_on with
  | _ n ih =>
    by_cases h : n < 10
    · rw [toDigits_small h]
      intro c hc
      rw [List.mem_singleton] at hc
      subst hc
      exact digitChar_isDigit h
    · rw [toDigits_step (by omega)]
      intro c hc
      rcases List.mem_append.mp hc with h1 | h2
      · exact ih (n / 10) (Nat.div_lt_self (by omega) (by norm_num)) c h1
      · rw [List.mem_singleton] at h2
        subst h2
        exact digitChar_isDigit (Nat.mod_lt _ (by norm_num))

theorem toDigits_ne_nil (n : Nat) : Nat.toDigits 10 n ≠ [] := by
  by_cases h : n < 10
  · rw [toDigits_small h]; simp
  · rw [toDigits_step (by omega)]; simp

theorem digitsToNat_append_singleton (xs : List Char) (c : Char) :
    digitsToNat (xs ++ [c]) = digitsToNat xs * 10 + (c.toNat - 48) := by
  simp [digitsToNat, List.foldl_append]

theorem digitsToNat_toDigits (n : Nat) :
    digitsToNat (Nat.toDigits 10 n) = n := by
  induction n using Nat.strong_induction_on with
  | _ n ih =>
    by_cases h : n < 10
    · rw [toDigits_small h]
      simp [digitsToNat, digitChar_toNat h]
    · rw [toDigits_step (by omega)]
      rw [digitsToNat_append_singleton]
      rw [ih (n / 10) (Nat.div_lt_self (by omega) (by norm_num))]
      rw [digitChar_toNat (Nat.mod_lt _ (by norm_num))]
      omega

theorem repr_data (n : Nat) : (Nat.repr n).data = Nat.toDigits 10 n := rfl

theorem toString_int_coe (n : Nat) :
    toString (n : Int) = Nat.repr n := rfl

theorem stripSign_nosign {c : Char} {l : List Char} (h1 : c ≠ '+') (h2 : c ≠ '-') :
    stripSign (c :: l) = (1, c :: l) := by
  unfold stripSign
  split
  · next heq => rw [List.cons.injEq] at heq; exact absurd heq.1 h1
  · next heq => rw [List.cons.injEq] at heq; exact absurd heq.1 h2
  · rfl

theorem parseInt32_repr {n : Nat} (h : (n : Int) < 2 ^ 31) :
    parseInt32 (Nat.repr n) = some (n : Int) := by
  cases hD : Nat.toDigits 10 n with
  | nil => exact absurd hD (toDigits_ne_nil n)
  | cons c cs =>
    have hall : ∀ x ∈ Nat.toDigits 10 n, x.isDigit = true := toDigits_all_digits n
    have hc : c.isDigit = true := by
      rw [hD] at hall; exact hall c (by simp)
    have hplus : c ≠ '+' := by
      intro hh; rw [hh] at hc; exact absurd hc (by decide)
    have hminus : c ≠ '-' := by
      intro hh; rw [hh] at hc; exact absurd hc (by decide)
    have hdata : (Nat.repr n).data = c :: cs := by rw [repr_data, hD]
    simp only [parseInt32, hdata, stripSign_nosign hplus hminus]
    rw [if_neg (by simp)]
    rw [if_pos ?hall2]
    case hall2 =>
      rw [List.all_eq_true]
      intro x hx
      rw [← hD] at hx
      exact hall x hx
    have hv : digitsToNat (c :: cs) = n := by
      rw [← hD]; exact digitsToNat_toDigits n
    rw [hv]
    rw [if_pos (by constructor <;> omega)]
    simp

theorem parseInt32_overflow {d : List Char} (hne : d ≠ [])
    (hall : ∀ x ∈ d, x.isDigit = true)
    (hbig : (2 : Int) ^ 31 - 1 < (digitsToNat d : Int)) :
    parseInt32 (String.mk d) = none := by
  cases d with
  | nil => exact absurd rfl hne
  | cons c cs =>
    have hc : c.isDigit = true := hall c (by simp)
    have hplus : c ≠ '+' := by
      intro hh; rw [hh] at hc; exact absurd hc (by decide)
    have hminus : c ≠ '-' := by
      intro hh; rw [hh] at hc; exact absurd hc (by decide)
    have hdata : (String.mk (c :: cs)).data = c :: cs := rfl
    simp only [parseInt32, hdata, stripSign_nosign hplus hminus]
    rw [if_neg (by simp)]
    rw [if_pos (by rw [List.all_eq_true]; exact hall)]
    rw [if_neg (by rw [not_and_or]; right; omega)]

theorem isDigit_ne_newline {x : Char} (h : x.isDigit = true) : x ≠ '\n' := by
  intro hx
  rw [hx] at h
  exact absurd h (by decide)

theorem matchSeq_PLCM_nil : matchSeq patternPLCM [] = none := rfl

theorem dotAny_of_ne {x : Char} (h : x ≠ '\n') : dotAny x = true := by
  simp [dotAny, h]

theorem extractIssues_PLCM (sevMap msgMap : List (String × String))
    (name : String) {p l c m : List Char}
    (hp : p ≠ []) (hpc : ∀ x ∈ p, x ≠ ':' ∧ x ≠ '\n')
    (hl : l ≠ []) (hld : ∀ x ∈ l, x.isDigit = true)
    (hc : c ≠ []) (hcd : ∀ x ∈ c, x.isDigit = true)
    (hmw : m.takeWhile goSpace = []) (hmn : ∀ x ∈ m, x ≠ '\n') :
    extractIssues sevMap msgMap name patternPLCM
        (String.mk (p ++ ':' :: (l ++ ':' :: (c ++ ':' :: m)))) =
      match parseInt32 (String.mk l) with
      | none => .error "line matched invalid integer"
      | some ln =>
        match parseInt32 (String.mk c) with
        | none => .error "col matched invalid integer"
        | some cl =>
          .ok [{ severity := (List.lookup name sevMap).getD "error",
                 path := String.mk p, line := ln, col := cl,
                 message :=
                   match List.lookup name msgMap with
                   | some t => replaceAll t "{message}" (String.mk m)
                   | none => String.mk m }] := by
  set L : List Char := p ++ ':' :: (l ++ ':' :: (c ++ ':' :: m)) with hL
  have hnl : ∀ x ∈ L, x ≠ '\n' := by
    intro x hx
    rw [hL] at hx
    simp only [List.mem_append, List.mem_cons] at hx
    rcases hx with h1 | rfl | h1 | rfl | h1 | rfl | h1
    · exact (hpc x h1).2
    · decide
    · exact isDigit_ne_newline (hld x h1)
    · decide
    · exact isDigit_ne_newline (hcd x h1)
    · decide
    · exact hmn x h1
  have hmatch := matchSeq_PLCM (p := p) (l := l) (c := c) (m := m)
    hp (fun x hx => by simp [nonColon, (hpc x hx).1])
    hl (fun x hx => hld x hx)
    hc (fun x hx => hcd x hx)
    hmw (fun x hx => dotAny_of_ne (hmn x hx))
  have hfind : FindAllSubmatch patternPLCM L =
      [[("path", String.mk p), ("line", String.mk l),
        ("col", String.mk c), ("message", String.mk m)]] := by
    have hs2 : L ≠ [] := by rw [hL]; cases p <;> simp_all
    have hm2 : matchSeq patternPLCM L =
        some ([("path", String.mk p), ("line", String.mk l),
               ("col", String.mk c), ("message", String.mk m)], L.length) := by
      rw [hL]; exact hmatch
    exact findAllSubmatch_whole hs2 hm2 matchSeq_PLCM_nil
  have hsplit : splitOnChar '\n' (String.mk L).data = [L] :=
    splitOnChar_single hnl
  unfold extractIssues
  rw [hsplit]
  simp only [extractLines]
  simp only [processLine, hfind]
  rw [buildIssue_PLCM]
  cases hln : parseInt32 (String.mk l) with
  | none => simp
  | some ln =>
    cases hcl : parseInt32 (String.mk c) with
    | none => simp
    | some cl =>
      cases hov : List.lookup name msgMap with
      | none =>
        cases hsv : List.lookup name sevMap with
        | none => simp [extractLines]
        | some sev => simp [extractLines]
      | some t =>
        cases hsv : List.lookup name sevMap with
        | none => simp [extractLines]
        | some sev => simp [extractLines]

theorem c10_overflow_fatal (sevMap msgMap : List (String × String))
    (name : String) (p dl dc m : List Char)
    (hp : p ≠ []) (hpc : ∀ x ∈ p, x ≠ ':' ∧ x ≠ '\n')
    (hdl : dl ≠ []) (hdld : ∀ x ∈ dl, x.isDigit = true)
    (hdc : dc ≠ []) (hdcd : ∀ x ∈ dc, x.isDigit = true)
    (hmw : m.takeWhile goSpace = []) (hmn : ∀ x ∈ m, x ≠ '\n') :
    ((2 : Int) ^ 31 - 1 < (digitsToNat dl : Int) →
      extractIssues sevMap msgMap name patternPLCM
          (String.mk (p ++ ':' :: (dl ++ ':' :: (dc ++ ':' :: m)))) =
        .error "line matched invalid integer") ∧
    (∀ ln : Int, parseInt32 (String.mk dl) = some ln →
      (2 : Int) ^ 31 - 1 < (digitsToNat dc : Int) →
      extractIssues sevMap msgMap name patternPLCM
          (String.mk (p ++ ':' :: (dl ++ ':' :: (dc ++ ':' :: m)))) =
        .error "col matched invalid integer") := by
  have hbase := extractIssues_PLCM sevMap msgMap name hp hpc hdl hdld hdc hdcd hmw hmn
  constructor
  · intro hbig
    rw [hbase, parseInt32_overflow hdl hdld hbig]
  · intro ln hln hbig
    rw [hbase, hln, parseInt32_overflow hdc hdcd hbig]

theorem c10_witness :
    extractIssues [] [] "t" patternPLCM
        (String.mk ("x".data ++ ':' :: ("2147483648".data ++ ':' ::
          ("3".data ++ ':' :: "boom".data)))) =
      .error "line matched invalid integer" ∧
    extractIssues [] [] "t" patternPLCM
        (String.mk ("x".data ++ ':' :: ("5".data ++ ':' ::
          ("2147483648".data ++ ':' :: "boom".data)))) =
      .error "col matched invalid integer" := by
  constructor
  · exact (c10_overflow_fatal [] [] "t" "x".data "2147483648".data "3".data
      "boom".data (by decide) (by decide) (by decide) (by decide) (by decide)
      (by decide) (by decide) (by decide)).1 (by decide)
  · exact (c10_overflow_fatal [] [] "t" "x".data "5".data "2147483648".data
      "boom".data (by decide) (by decide) (by decide) (by decide) (by decide)
      (by decide) (by decide) (by decide)).2 5 (by decide) (by decide)

theorem c3_render_parse_render (sevMap : List (String × String))
    (name : String) (i : Issue)
    (hp : i.path.data ≠ []) (hpc : ∀ x ∈ i.path.data, x ≠ ':' ∧ x ≠ '\n')
    (hline : 0 ≤ i.line) (hline31 : i.line < 2 ^ 31)
    (hcol : 0 < i.col) (hcol31 : i.col < 2 ^ 31)
    (hmw : (i.severity ++ ": " ++ i.message).data.takeWhile goSpace = [])
    (hmn : ∀ x ∈ (i.severity ++ ": " ++ i.message).data, x ≠ '\n') :
    extractIssues sevMap [] name patternPLCM (Issue.String i) =
      .ok [{ severity := (List.lookup name sevMap).getD "error",
             path := i.path, line := i.line, col := i.col,
             message := i.severity ++ ": " ++ i.message }] ∧
    Issue.String { severity := (List.lookup name sevMap).getD "error",
                   path := i.path, line := i.line, col := i.col,
                   message := i.severity ++ ": " ++ i.message } ≠
      Issue.String i := by
  obtain ⟨n, hn⟩ := Int.eq_ofNat_of_zero_le hline
  obtain ⟨k, hk⟩ := Int.eq_ofNat_of_zero_le (le_of_lt hcol)
  have hcol0 : i.col ≠ 0 := by omega
  have d1 : (":" : String).data = [':'] := rfl
  have d2 : (": " : String).data = [':', ' '] := rfl
  have hS : Issue.String i =
      String.mk (i.path.data ++ ':' :: ((toString i.line).data ++ ':' ::
        ((toString i.col).data ++ ':' ::
          (i.severity ++ ": " ++ i.message).data))) := by
    apply String.ext
    simp only [Issue.String]
    rw [if_neg hcol0]
    simp [String.data_append, d1, d2]
  have hlne : (toString i.line).data ≠ [] := by
    rw [hn, toString_int_coe, repr_data]
    exact toDigits_ne_nil n
  have hld : ∀ x ∈ (toString i.line).data, x.isDigit = true := by
    rw [hn, toString_int_coe, repr_data]
    exact toDigits_all_digits n
  have hcne : (toString i.col).data ≠ [] := by
    rw [hk, toString_int_coe, repr_data]
    exact toDigits_ne_nil k
  have hcd : ∀ x ∈ (toString i.col).data, x.isDigit = true := by
    rw [hk, toString_int_coe, repr_data]
    exact toDigits_all_digits k
  have hpl : parseInt32 (String.mk (toString i.line).data) = some i.line := by
    rw [hn, toString_int_coe]
    exact parseInt32_repr (by rw [hn] at hline31; exact_mod_cast hline31)
  have hpk : parseInt32 (String.mk (toString i.col).data) = some i.col := by
    rw [hk, toString_int_coe]
    exact parseInt32_repr (by rw [hk] at hcol31; exact_mod_cast hcol31)
  constructor
  · rw [hS]
    rw [extractIssues_PLCM sevMap [] name hp hpc hlne hld hcne hcd hmw hmn]
    rw [hpl, hpk]
    rfl
  · intro heq
    have hlen := congrArg String.length heq
    have l1 : (":" : String).length = 1 := rfl
    have l2 : (": " : String).length = 2 := rfl
    simp only [Issue.String] at hlen
    rw [if_neg hcol0] at hlen
    simp only [String.length_append, l1, l2] at hlen
    omega

theorem c3_counterexample :
    extractIssues [] [] "t" patternPLCM
        (Issue.String { severity := "error", path := "a.go", line := 5,
                        col := 3, message := "bad" }) =
      .ok [{ severity := "error", path := "a.go", line := 5, col := 3,
             message := "error: bad" }] ∧
    Issue.String { severity := "error", path := "a.go", line := 5, col := 3,
                   message := "error: bad" } ≠
      Issue.String { severity := "error", path := "a.go", line := 5, col := 3,
                     message := "bad" } := by
  decide

theorem c3_witness :
    extractIssues [] [] "t" patternPLCM
        (Issue.String { severity := "warning", path := "a.go", line := 5,
                        col := 3, message := "bad" }) =
      .ok [{ severity := (List.lookup "t"
               ([] : List (String × String))).getD "error",
             path := "a.go", line := 5, col := 3,
             message := "warning" ++ ": " ++ "bad" }] ∧
    Issue.String { severity := (List.lookup "t"
                     ([] : List (String × String))).getD "error",
                   path := "a.go", line := 5, col := 3,
                   message := "warning" ++ ": " ++ "bad" } ≠
      Issue.String { severity := "warning", path := "a.go", line := 5,
                     col := 3, message := "bad" } :=
  c3_render_parse_render [] "t"
    { severity := "warning", path := "a.go", line := 5, col := 3,
      message := "bad" }
    (by decide) (by decide) (by decide) (by decide) (by decide) (by decide)
    (by decide) (by decide)
